import Mathlib

/-!
Verification development for the libovsdb in-memory transaction engine
(`database` package, file `transact.go`).

The transaction executor (`Transact`, `rowsFromTransactionCacheAndDatabase`,
`checkIndexes`, and the per-operation methods `Insert`, `Select`, `Update`,
`Mutate`, `Delete`, `Wait`, `Commit`, `Abort`, `Comment`, `Assert`) is
embedded shallowly from the source.  Its collaborators — the transaction
scratch cache (`cache.TableCache`), the committed-store facade (`Database`),
the row-update accumulator (`updates.ModelUpdates`), the condition evaluator
and the mutation engine of the `ovsdb` package — are not part of the source
under study; they are modelled from the specification (sections 4.2–4.6 and
4.8) and each such definition says so in its doc comment.

Rows are modelled as association lists from column name to a `Value`
(atom, set or map of atoms); Go maps become association lists, Go `nil`
pointer dereference becomes `Option` (a `none` result of the dispatcher
models the runtime panic), and fallible collaborator calls become `Except`.
-/

namespace LibOVSDB

/-- Column values: an atom, a set of atoms, or a map of atoms to atoms.
Modelled from the spec (§4.2, §9 "Tagged composite values"): the wire value
shapes of the `ovsdb` package are not under src/.  Numeric atoms are kept as
strings; scalar arithmetic of the mutation engine is outside every claim. -/
inductive Value where
  | atom (s : String)
  | vset (elems : List String)
  | vmap (pairs : List (String × String))
deriving DecidableEq

/-- A row: association list from column name to value (`model.Model` in the
source, with the `_uuid` column kept separately as the map key). -/
abbrev Row := List (String × Value)

abbrev UUID := String

/-- First-match lookup in an association list keyed by strings. -/
def alookup {α : Type} : List (String × α) → String → Option α
  | [], _ => none
  | (k₂, v) :: rest, k => if k₂ = k then some v else alookup rest k

/-- Boolean membership in a list of strings. -/
def memStr : List String → String → Bool
  | [], _ => false
  | x :: rest, u => x == u || memStr rest u

/-- Set a column of a row, replacing the first existing binding. -/
def setCol : Row → String → Value → Row
  | [], c, v => [(c, v)]
  | (c₂, v₂) :: rest, c, v =>
    if c₂ = c then (c, v) :: rest else (c₂, v₂) :: setCol rest c v

/-- A condition triple `(column, function, value)` of `ovsdb.Condition`. -/
structure Condition where
  Column : String
  Function : String
  Val : Value
deriving DecidableEq

/-- Modelled from the spec: the condition evaluator (§4.3) of the `ovsdb`
package is not under src/.  Equality, inequality and the set/map
`includes`/`excludes` functions are modelled; the ordered comparisons on
numeric atoms (which no claim touches) evaluate to no match.  The reserved
column `_uuid` compares against the row's synthetic identifier. -/
def condMatches (rowUUID : UUID) (r : Row) (c : Condition) : Bool :=
  let actual : Option Value :=
    if c.Column = "_uuid" then some (Value.atom rowUUID) else alookup r c.Column
  match actual with
  | none => false
  | some v =>
    match c.Function with
    | "==" => v == c.Val
    | "!=" => !(v == c.Val)
    | "includes" =>
      match v, c.Val with
      | Value.vset xs, Value.vset ys => ys.all (fun y => memStr xs y)
      | Value.vmap xs, Value.vmap ys => ys.all (fun y => xs.contains y)
      | _, _ => false
    | "excludes" =>
      match v, c.Val with
      | Value.vset xs, Value.vset ys => ys.all (fun y => !(memStr xs y))
      | Value.vmap xs, Value.vmap ys => ys.all (fun y => !(xs.contains y))
      | _, _ => false
    | _ => false

/-- A row satisfies a condition list iff it satisfies every condition (§4.3). -/
def rowMatches (u : UUID) (r : Row) (conds : List Condition) : Bool :=
  conds.all (condMatches u r)

/-- The rows of one table, keyed by UUID. -/
abbrev TableRows := List (UUID × Row)

/-- A table cache: association list from table name to its rows.  Modelled
from the spec (§4.6): `cache.TableCache` is not under src/. -/
abbrev Cache := List (String × TableRows)

/-- Modelled from the spec (§4.6): `TableCache.Table` — the rows of one
table, empty for an unknown table. -/
def cacheTable (c : Cache) (table : String) : TableRows :=
  (alookup c table).getD []

/-- Modelled from the spec (§4.6): `RowCache.RowsByCondition` — linear scan
of a table's rows for those satisfying the condition list. -/
def RowsByCondition (rows : TableRows) (conds : List Condition) : TableRows :=
  rows.filter (fun p => rowMatches p.1 p.2 conds)

/-- Modelled from the spec (§4.6): `RowCache.HasRow`. -/
def hasRow (rows : TableRows) (u : UUID) : Bool :=
  (alookup rows u).isSome

/-- Insert a row under a fresh UUID, leaving an existing binding in place. -/
def tableInsertRow (rows : TableRows) (u : UUID) (r : Row) : TableRows :=
  if hasRow rows u then rows else rows ++ [(u, r)]

/-- Replace (or append) the row bound to a UUID. -/
def tableSetRow : TableRows → UUID → Row → TableRows
  | [], u, r => [(u, r)]
  | (u₂, r₂) :: rest, u, r =>
    if u₂ = u then (u, r) :: rest else (u₂, r₂) :: tableSetRow rest u r

/-- Remove every binding of a UUID from a table. -/
def tableRemoveRow (rows : TableRows) (u : UUID) : TableRows :=
  rows.filter (fun p => !(p.1 == u))

/-- Replace a table's row list inside a cache, appending the table if new. -/
def cacheSetTable : Cache → String → TableRows → Cache
  | [], table, rows => [(table, rows)]
  | (t₂, rs) :: rest, table, rows =>
    if t₂ = table then (table, rows) :: rest
    else (t₂, rs) :: cacheSetTable rest table rows

/-- Modelled from the spec (§4.6): `RowCache.Create` with `checkIndexes =
false`, as used by the executor to warm the transaction cache; it inserts
the row and, with index checking off, never fails.  An existing binding is
left in place. -/
def cacheCreate (c : Cache) (table : String) (u : UUID) (r : Row) : Cache :=
  cacheSetTable c table (tableInsertRow (cacheTable c table) u r)

/-- The committed-store facade: database name to tables.  Modelled from the
spec (§4.8): the `Database` interface is not under src/. -/
abbrev DBStore := List (String × Cache)

/-- Modelled from the spec (§4.8): `Database.Exists`. -/
def dbExists (db : DBStore) (name : String) : Bool :=
  (alookup db name).isSome

/-- Modelled from the spec (§4.8): `Database.List` — the committed rows of a
table matching a condition list, side-effect free. -/
def dbList (db : DBStore) (name table : String) (conds : List Condition) : TableRows :=
  RowsByCondition (cacheTable ((alookup db name).getD []) table) conds

/-- Index declarations: table name to its list of indexes, each an ordered
list of column names (§3, §4.1).  Stands in for `model.DatabaseModel`'s
schema as far as the executor consumes it. -/
abbrev Schema := List (String × List (List String))

/-- The declared indexes of a table. -/
def schemaIndexes (s : Schema) (table : String) : List (List String) :=
  (alookup s table).getD []

/-- The index tuple of a row over one declared index (§3 "index tuple"). -/
def indexTuple (idx : List String) (r : Row) : List (Option Value) :=
  idx.map (alookup r)

/-- The collision record `cache.ErrIndexExists` (carried fields: the table,
the new row's UUID, the index columns and the existing colliding UUIDs). -/
structure ErrIndexExists where
  Table : String
  NewUUID : String
  Index : List String
  Existing : List String
deriving DecidableEq

/-- The UUIDs of rows other than `u` whose tuple over `idx` equals that of
`r`. -/
def collidingUUIDs (rows : TableRows) (idx : List String) (u : UUID) (r : Row) : List UUID :=
  (rows.filter (fun p => decide (p.1 ≠ u ∧ indexTuple idx p.2 = indexTuple idx r))).map (fun p => p.1)

/-- First declared index on which the candidate row collides with another
row of the given row set, if any. -/
def firstIndexError (table : String) (rows : TableRows) (u : UUID) (r : Row) :
    List (List String) → Option ErrIndexExists
  | [] => none
  | idx :: rest =>
    let coll := collidingUUIDs rows idx u r
    if coll.isEmpty then firstIndexError table rows u r rest
    else some { Table := table, NewUUID := u, Index := idx, Existing := coll }

/-- Modelled from the spec (§4.6): `RowCache.IndexExists` — duplicate-index
check of a row against the other rows of the same (scratch) table. -/
def cacheIndexExists (schema : Schema) (table : String) (tc : TableRows) (u : UUID) (r : Row) :
    Option ErrIndexExists :=
  firstIndexError table tc u r (schemaIndexes schema table)

/-- Modelled from the spec (§4.8): `Database.CheckIndexes` — duplicate-index
check of a candidate row against the committed rows of the same table. -/
def dbCheckIndexes (db : DBStore) (schema : Schema) (dbName table : String) (u : UUID) (r : Row) :
    Option ErrIndexExists :=
  firstIndexError table (cacheTable ((alookup db dbName).getD []) table) u r
    (schemaIndexes schema table)

/-- The existing colliding UUIDs of an optional collision record. -/
def existingOf : Option ErrIndexExists → List String
  | none => []
  | some e => e.Existing

/-- A per-row effect of the update accumulator (§4.5): an insert carrying
the new row, a modify carrying old and new, or a delete carrying the old
row (the tombstone keeps the pre-image). -/
inductive RowUpdate where
  | ins (new : Row)
  | modify (old new : Row)
  | del (old : Row)
deriving DecidableEq

/-- The row-update accumulator `updates.ModelUpdates`: at most one effect
per `(table, uuid)`, kept as an association list in arrival order.
Modelled from the spec (§4.5): the `updates` package is not under src/. -/
structure ModelUpdates where
  updates : List (String × UUID × RowUpdate)
deriving DecidableEq

/-- Modelled from the spec (§4.5): the merge table for one row's existing
effect against a fresh effect.  `Except.error` is a fatal conflict and
`Except.ok none` is the cancellation of an insert by a delete. -/
def mergeRowUpdate : RowUpdate → RowUpdate → Except String (Option RowUpdate)
  | RowUpdate.ins _, RowUpdate.ins _ => Except.error "row update conflict: insert over insert"
  | RowUpdate.ins _, RowUpdate.modify _ new => Except.ok (some (RowUpdate.ins new))
  | RowUpdate.ins _, RowUpdate.del _ => Except.ok none
  | RowUpdate.modify _ _, RowUpdate.ins _ => Except.error "row update conflict: insert over modify"
  | RowUpdate.modify old _, RowUpdate.modify _ new => Except.ok (some (RowUpdate.modify old new))
  | RowUpdate.modify old _, RowUpdate.del _ => Except.ok (some (RowUpdate.del old))
  | RowUpdate.del old, RowUpdate.ins new => Except.ok (some (RowUpdate.modify old new))
  | RowUpdate.del _, RowUpdate.modify _ _ => Except.error "row update conflict: modify over delete"
  | RowUpdate.del old, RowUpdate.del _ => Except.ok (some (RowUpdate.del old))

/-- The accumulator's entry for a `(table, uuid)` key, if any. -/
def muGet (mu : ModelUpdates) (table : String) (u : UUID) : Option RowUpdate :=
  (mu.updates.find? (fun e => e.1 = table ∧ e.2.1 = u)).map (fun e => e.2.2)

/-- Replace (or drop, on `none`) the accumulator's entry for a key. -/
def muSet (mu : ModelUpdates) (table : String) (u : UUID) : Option RowUpdate → ModelUpdates
  | none => ⟨mu.updates.filter (fun e => !(decide (e.1 = table ∧ e.2.1 = u)))⟩
  | some ru => ⟨mu.updates.map (fun e => if e.1 = table ∧ e.2.1 = u then (table, u, ru) else e)⟩

/-- Add one row effect to the accumulator, merging with an existing entry
for the same key per the §4.5 table. -/
def muAdd (mu : ModelUpdates) (table : String) (u : UUID) (ru : RowUpdate) :
    Except String ModelUpdates :=
  match muGet mu table u with
  | none => Except.ok ⟨mu.updates ++ [(table, u, ru)]⟩
  | some old =>
    match mergeRowUpdate old ru with
    | Except.error e => Except.error e
    | Except.ok merged => Except.ok (muSet mu table u merged)

/-- Override the listed columns of a row (the `update` row replacement). -/
def rowOverride (old : Row) (cols : Row) : Row :=
  cols.foldl (fun acc p => setCol acc p.1 p.2) old

/-- One mutation `{column, mutator, value}` of `ovsdb.Mutation`. -/
structure Mutation where
  Column : String
  Mutator : String
  Val : Value
deriving DecidableEq

/-- Modelled from the spec (§4.4): the mutation engine of the `ovsdb`
package is not under src/.  The set and map `insert`/`delete` operators are
modelled (duplicates collapse; map insert skips existing keys; map delete
by key set or by exact pair); scalar arithmetic, which no claim touches,
leaves the row unchanged. -/
def applyMutation (r : Row) (m : Mutation) : Row :=
  match alookup r m.Column, m.Mutator, m.Val with
  | some (Value.vset xs), "insert", Value.vset ys =>
    setCol r m.Column (Value.vset (xs ++ ys.filter (fun y => !(memStr xs y))))
  | some (Value.vset xs), "delete", Value.vset ys =>
    setCol r m.Column (Value.vset (xs.filter (fun x => !(memStr ys x))))
  | some (Value.vmap ps), "insert", Value.vmap qs =>
    setCol r m.Column (Value.vmap (ps ++ qs.filter (fun q => (alookup ps q.1).isNone)))
  | some (Value.vmap ps), "delete", Value.vset keys =>
    setCol r m.Column (Value.vmap (ps.filter (fun p => !(memStr keys p.1))))
  | some (Value.vmap ps), "delete", Value.vmap qs =>
    setCol r m.Column (Value.vmap (ps.filter (fun p => !(qs.contains p))))
  | _, _, _ => r

/-- Apply a list of mutations in order (§4.7 `mutate`). -/
def applyMutations (r : Row) (ms : List Mutation) : Row :=
  ms.foldl applyMutation r

/-- One `ovsdb.Operation` of a transact request, with the optional wire
fields (`durable`, `comment`, `lock`) as `Option` — Go `nil` pointers. -/
structure Operation where
  Op : String := ""
  Table : String := ""
  Where : List Condition := []
  Columns : List String := []
  Row : LibOVSDB.Row := []
  Rows : List LibOVSDB.Row := []
  Mutations : List Mutation := []
  UUIDName : String := ""
  Timeout : Option Int := none
  Until : String := ""
  Durable : Option Bool := none
  Comment : Option String := none
  Lock : Option String := none
deriving DecidableEq

/-- `ovsdb.OperationResult`: at most one of UUID / rows / count is
meaningful, plus the error and details strings. -/
structure OperationResult where
  Count : Nat := 0
  Error : String := ""
  Details : String := ""
  UUID : String := ""
  Rows : List LibOVSDB.Row := []
deriving DecidableEq

/-- The wire-visible error kinds the executor produces (§6), plus a generic
carrier for collaborator error strings. -/
inductive OvsdbError where
  | notSupported
  | constraintViolation (details : String)
  | timedOut
  | generic (msg : String)
deriving DecidableEq

/-- The wire error string of an error kind. -/
def errorName : OvsdbError → String
  | OvsdbError.notSupported => "not supported"
  | OvsdbError.constraintViolation _ => "constraint violation"
  | OvsdbError.timedOut => "timed out"
  | OvsdbError.generic m => m

/-- The details string of an error kind. -/
def errorDetails : OvsdbError → String
  | OvsdbError.constraintViolation d => d
  | _ => ""

/-- `ovsdb.ResultFromError`: an operation result carrying only the error. -/
def ResultFromError (e : OvsdbError) : OperationResult :=
  { Error := errorName e, Details := errorDetails e }

/-- Modelled from the spec (§6 "Index-exists details string"): the
`newIndexExistsDetails` helper is not under src/; the human-readable string
names the table, the index columns and the colliding rows. -/
def newIndexExistsDetails (e : ErrIndexExists) : String :=
  "cannot insert row in table " ++ e.Table ++
    " because of identical values for index " ++ String.intercalate "," e.Index ++
    ": rows " ++ String.intercalate "," e.Existing

/-- Modelled from the spec (§4.5, §4.7): `updates.ModelUpdates.AddOperation`
is not under src/.  It derives the row effect of one operation on one row —
insert carries the operation's row, update overrides the listed columns,
mutate applies the mutations in order, delete tombstones the old row — and
merges it into the accumulator. -/
def ModelUpdates.AddOperation (mu : ModelUpdates) (table : String) (u : UUID)
    (old : Option LibOVSDB.Row) (op : Operation) : Except String ModelUpdates :=
  match op.Op with
  | "insert" => muAdd mu table u (RowUpdate.ins op.Row)
  | "update" => muAdd mu table u (RowUpdate.modify (old.getD []) (rowOverride (old.getD []) op.Row))
  | "mutate" => muAdd mu table u (RowUpdate.modify (old.getD []) (applyMutations (old.getD []) op.Mutations))
  | "delete" => muAdd mu table u (RowUpdate.del (old.getD []))
  | _ => Except.ok mu

/-- Modelled from the spec (§4.5): merging one accumulator into another,
entry by entry in order; a conflict of the §4.5 table is fatal. -/
def ModelUpdates.Merge (mu other : ModelUpdates) : Except String ModelUpdates :=
  other.updates.foldlM (fun acc e => muAdd acc e.1 e.2.1 e.2.2) mu

/-- Apply one row effect to a cache table (§4.6 `apply`). -/
def applyRowUpdate (c : Cache) (table : String) (u : UUID) : RowUpdate → Cache
  | RowUpdate.ins new => cacheSetTable c table (tableSetRow (cacheTable c table) u new)
  | RowUpdate.modify _ new => cacheSetTable c table (tableSetRow (cacheTable c table) u new)
  | RowUpdate.del _ => cacheSetTable c table (tableRemoveRow (cacheTable c table) u)

/-- Modelled from the spec (§4.6): `TableCache.ApplyCacheUpdate` — applies
an accumulator diff to the scratch cache in order, never failing on a diff
the executor itself produced. -/
def ApplyCacheUpdate (c : Cache) (mu : ModelUpdates) : Cache :=
  mu.updates.foldl (fun acc e => applyRowUpdate acc e.1 e.2.1 e.2.2) c

/-- The transaction state (`database.Transaction`): the per-transaction
scratch cache, the deleted-UUID set and the database name.  The immutable
collaborator handles (`Database`, `model.DatabaseModel`) are passed to the
executor functions as the `db` and `schema` parameters, and the random
transaction `ID` is dropped. -/
structure Transaction where
  Cache : LibOVSDB.Cache
  DeletedRows : List UUID
  DbName : String
deriving DecidableEq

/-- Stands in for `uuid.NewString()` in `Insert`: the source draws a random
fresh UUID, which a pure embedding replaces by a fixed placeholder (no
claim depends on the drawn value). -/
def freshUUID : String := "00000000-0000-4000-8000-000000000000"

/-- Embeds `Transaction.rowsFromTransactionCacheAndDatabase`: the working
row set of a non-insert operation.  Scratch rows matching `where` take
precedence over committed rows matching `where`; committed rows absent from
the matching scratch rows are warmed into the scratch cache; rows inserted
in the transaction are added; deleted UUIDs are excluded from the returned
set (after warming, as in the source).  The collaborator error paths of the
source (cache list / database list / warming failures) cannot arise in the
spec-modelled collaborators, so the result is total. -/
def Transaction.rowsFromTransactionCacheAndDatabase (t : Transaction) (db : DBStore)
    (table : String) (whereConds : List Condition) : TableRows × Transaction :=
  let txnRows := RowsByCondition (cacheTable t.Cache table) whereConds
  let dbRows := dbList db t.DbName table whereConds
  let merged := dbRows.map (fun p =>
    match alookup txnRows p.1 with
    | some txnRow => (p.1, txnRow)
    | none => p)
  let cache₂ := dbRows.foldl (fun c p =>
    if (alookup txnRows p.1).isSome then c else cacheCreate c table p.1 p.2) t.Cache
  let inserted := txnRows.filter (fun p => (alookup dbRows p.1).isNone)
  let rows := (merged ++ inserted).filter (fun p => !(memStr t.DeletedRows p.1))
  (rows, { t with Cache := cache₂ })

/-- Embeds `Transaction.checkIndexes` on the rows of one table: each scratch
row is checked against the other scratch rows and against the committed
store; a committed collision is skipped only when every colliding UUID is
deleted in the transaction or itself present in the scratch table. -/
def checkRows (db : DBStore) (schema : Schema) (dbName : String) (deleted : List UUID)
    (table : String) (tc : TableRows) : TableRows → Option ErrIndexExists
  | [] => none
  | (u, r) :: rest =>
    match cacheIndexExists schema table tc u r with
    | some e => some e
    | none =>
      match dbCheckIndexes db schema dbName table u r with
      | none => checkRows db schema dbName deleted table tc rest
      | some e =>
        if e.Existing.all (fun ex => memStr deleted ex || hasRow tc ex) then
          checkRows db schema dbName deleted table tc rest
        else some e

/-- Embeds the outer table loop of `Transaction.checkIndexes`. -/
def checkTables (db : DBStore) (schema : Schema) (dbName : String) (deleted : List UUID) :
    Cache → Option ErrIndexExists
  | [] => none
  | (table, tc) :: rest =>
    match checkRows db schema dbName deleted table tc tc with
    | some e => some e
    | none => checkTables db schema dbName deleted rest

/-- Embeds `Transaction.checkIndexes`: walk every scratch-cache row and
report the first index conflict, intra-cache or against the committed
store, that the transaction does not supersede. -/
def Transaction.checkIndexes (t : Transaction) (db : DBStore) (schema : Schema) :
    Option ErrIndexExists :=
  checkTables db schema t.DbName t.DeletedRows t.Cache

/-- Embeds `Transaction.Insert`: the provided `named-uuid` or a fresh UUID,
one insert effect in a fresh accumulator, and a result carrying the UUID. -/
def Transaction.Insert (t : Transaction) (op : Operation) :
    OperationResult × Option ModelUpdates × Transaction :=
  let rowUUID := if op.UUIDName = "" then freshUUID else op.UUIDName
  match ModelUpdates.AddOperation ⟨[]⟩ op.Table rowUUID none op with
  | Except.error e => (ResultFromError (OvsdbError.generic e), none, t)
  | Except.ok update => ({ UUID := rowUUID }, some update, t)

/-- Embeds `Transaction.Select`: the working row set, returned as encoded
rows (the reflective mapper of the source is the identity here, and its
error paths cannot arise; as in the source, `columns` is not filtered). -/
def Transaction.Select (t : Transaction) (db : DBStore) (table : String)
    (whereConds : List Condition) (columns : List String) :
    OperationResult × Transaction :=
  let (rows, t₂) := t.rowsFromTransactionCacheAndDatabase db table whereConds
  ({ Rows := rows.map (fun p => p.2) }, t₂)

/-- Embeds `Transaction.Update`: one modify effect per working-set row, and
a count result. -/
def Transaction.Update (t : Transaction) (db : DBStore) (op : Operation) :
    OperationResult × Option ModelUpdates × Transaction :=
  let (rows, t₂) := t.rowsFromTransactionCacheAndDatabase db op.Table op.Where
  match rows.foldlM (fun mu p => ModelUpdates.AddOperation mu op.Table p.1 (some p.2) op)
      (⟨[]⟩ : ModelUpdates) with
  | Except.error e => (ResultFromError (OvsdbError.generic e), none, t₂)
  | Except.ok update => ({ Count := rows.length }, some update, t₂)

/-- Embeds `Transaction.Mutate`: one modify effect per working-set row, and
a count result. -/
def Transaction.Mutate (t : Transaction) (db : DBStore) (op : Operation) :
    OperationResult × Option ModelUpdates × Transaction :=
  let (rows, t₂) := t.rowsFromTransactionCacheAndDatabase db op.Table op.Where
  match rows.foldlM (fun mu p => ModelUpdates.AddOperation mu op.Table p.1 (some p.2) op)
      (⟨[]⟩ : ModelUpdates) with
  | Except.error e => (ResultFromError (OvsdbError.generic e), none, t₂)
  | Except.ok update => ({ Count := rows.length }, some update, t₂)

/-- Embeds `Transaction.Delete`: one delete effect per working-set row, each
row's UUID recorded in the transaction's deleted set, and a count result. -/
def Transaction.Delete (t : Transaction) (db : DBStore) (op : Operation) :
    OperationResult × Option ModelUpdates × Transaction :=
  let (rows, t₂) := t.rowsFromTransactionCacheAndDatabase db op.Table op.Where
  let step := fun (acc : Except String (ModelUpdates × List UUID)) (p : UUID × LibOVSDB.Row) =>
    match acc with
    | Except.error e => Except.error e
    | Except.ok (mu, del) =>
      match ModelUpdates.AddOperation mu op.Table p.1 (some p.2) op with
      | Except.error e => Except.error e
      | Except.ok mu₂ => Except.ok (mu₂, del ++ [p.1])
  match rows.foldl step (Except.ok (⟨[]⟩, t₂.DeletedRows)) with
  | Except.error e => (ResultFromError (OvsdbError.generic e), none, t₂)
  | Except.ok (mu, del) => ({ Count := rows.length }, some mu, { t₂ with DeletedRows := del })

/-- Modelled from the spec for the time-dependent part: the row-matching
test of `Wait` against the expected rows, with columns whose expected value
is absent (the schema default) treated as wildcards (§4.7 `wait`). -/
def waitRowMatch (r : LibOVSDB.Row) (columns : List String) (rows : List LibOVSDB.Row) : Bool :=
  columns.all (fun c => rows.all (fun er =>
    match alookup er c with
    | none => true
    | some x => alookup r c == some x))

/-- Embeds `Transaction.Wait` for a single poll: an `until` other than `==`
or `!=` is not supported; otherwise the working set is filtered against the
expected rows and an unsatisfied predicate times out.  The source's
sleep-and-repoll loop is real-time behaviour that a pure embedding cannot
carry; this is its `timeout = 0` instance (spec §8: "wait timeout=0 returns
immediately with timed out if the predicate is not already satisfied"). -/
def Transaction.Wait (t : Transaction) (db : DBStore) (table : String) (timeout : Option Int)
    (whereConds : List Condition) (columns : List String) (untilOp : String)
    (rows : List LibOVSDB.Row) : OperationResult × Transaction :=
  if untilOp ≠ "!=" ∧ untilOp ≠ "==" then (ResultFromError OvsdbError.notSupported, t)
  else
    let (found, t₂) := t.rowsFromTransactionCacheAndDatabase db table whereConds
    let filtered := found.filter (fun p => waitRowMatch p.2 columns rows)
    if (untilOp = "==" ∧ filtered.length = rows.length)
        ∨ (untilOp = "!=" ∧ filtered.length ≠ rows.length) then
      ({}, t₂)
    else (ResultFromError OvsdbError.timedOut, t₂)

/-- Embeds `Transaction.Commit`: always not supported. -/
def Transaction.Commit (table : String) (durable : Bool) : OperationResult :=
  ResultFromError OvsdbError.notSupported

/-- Embeds `Transaction.Abort`: always not supported. -/
def Transaction.Abort (table : String) : OperationResult :=
  ResultFromError OvsdbError.notSupported

/-- Embeds `Transaction.Comment`: always not supported. -/
def Transaction.Comment (table : String) (comment : String) : OperationResult :=
  ResultFromError OvsdbError.notSupported

/-- Embeds `Transaction.Assert`: always not supported. -/
def Transaction.Assert (table : String) (lock : String) : OperationResult :=
  ResultFromError OvsdbError.notSupported

/-- Embeds the dispatch switch of `Transact` (one operation, after the
previous-error and database-existence guards).  A `none` result models the
runtime panic of the source: for `commit`, `comment` and `assert` the
source dereferences the optional wire field (`*op.Durable`, `*op.Comment`,
`*op.Lock`) without a nil check. -/
def dispatchOp (db : DBStore) (schema : Schema) (t : Transaction) (op : Operation) :
    Option (OperationResult × Option ModelUpdates × Transaction) :=
  match op.Op with
  | "insert" => some (t.Insert op)
  | "select" =>
    let (r, t₂) := t.Select db op.Table op.Where op.Columns
    some (r, none, t₂)
  | "update" => some (t.Update db op)
  | "mutate" => some (t.Mutate db op)
  | "delete" => some (t.Delete db op)
  | "wait" =>
    let (r, t₂) := t.Wait db op.Table op.Timeout op.Where op.Columns op.Until op.Rows
    some (r, none, t₂)
  | "commit" =>
    match op.Durable with
    | none => none
    | some d => some (Transaction.Commit op.Table d, none, t)
  | "abort" => some (Transaction.Abort op.Table, none, t)
  | "comment" =>
    match op.Comment with
    | none => none
    | some c => some (Transaction.Comment op.Table c, none, t)
  | "assert" =>
    match op.Lock with
    | none => none
    | some l => some (Transaction.Assert op.Table l, none, t)
  | _ => some (ResultFromError OvsdbError.notSupported, none, t)

/-- The loop accumulator of `Transact`: the transaction state, the result
vector so far, the merged update accumulator, and the last stored result
`r` (whose error field drives abort propagation). -/
structure TAcc where
  txn : Transaction
  results : List (Option OperationResult)
  update : ModelUpdates
  r : OperationResult
deriving DecidableEq

/-- Embeds one iteration of the `Transact` loop: a previous error appends a
nil placeholder; a missing database stores and appends an error result;
otherwise the operation is dispatched and, on success with updates, the
updates are merged into the accumulator (a merge conflict overwrites the
result with its error) and applied to the scratch cache. -/
def transactStep (db : DBStore) (schema : Schema) (acc : TAcc) (op : Operation) : Option TAcc :=
  if acc.r.Error ≠ "" then some { acc with results := acc.results ++ [none] }
  else if !(dbExists db acc.txn.DbName) then
    let r : OperationResult := { Error := "database does not exist" }
    some { acc with r := r, results := acc.results ++ [some r] }
  else
    match dispatchOp db schema acc.txn op with
    | none => none
    | some (r₀, u, t₂) =>
      match u with
      | none => some { txn := t₂, results := acc.results ++ [some r₀], update := acc.update, r := r₀ }
      | some mu =>
        if r₀.Error = "" then
          match acc.update.Merge mu with
          | Except.error e =>
            let r₁ := ResultFromError (OvsdbError.generic e)
            some { txn := { t₂ with Cache := ApplyCacheUpdate t₂.Cache mu },
                   results := acc.results ++ [some r₁], update := acc.update, r := r₁ }
          | Except.ok merged =>
            some { txn := { t₂ with Cache := ApplyCacheUpdate t₂.Cache mu },
                   results := acc.results ++ [some r₀], update := merged, r := r₀ }
        else some { txn := t₂, results := acc.results ++ [some r₀], update := acc.update, r := r₀ }

/-- Embeds the operation loop of `Transact`. -/
def transactLoop (db : DBStore) (schema : Schema) : TAcc → List Operation → Option TAcc
  | acc, [] => some acc
  | acc, op :: ops =>
    match transactStep db schema acc op with
    | none => none
    | some acc₂ => transactLoop db schema acc₂ ops

/-- Embeds `Transaction.Transact`: run the loop from an empty accumulator;
if an operation failed, return without further validation, otherwise check
index constraints and append at most one trailing constraint-violation
result.  A `none` value models the runtime panic of the dispatch. -/
def Transaction.Transact (t : Transaction) (db : DBStore) (schema : Schema)
    (ops : List Operation) :
    Option (List (Option OperationResult) × ModelUpdates × Transaction) :=
  match transactLoop db schema { txn := t, results := [], update := ⟨[]⟩, r := {} } ops with
  | none => none
  | some acc =>
    if acc.r.Error ≠ "" then some (acc.results, acc.update, acc.txn)
    else
      match acc.txn.checkIndexes db schema with
      | some e =>
        some (acc.results ++
          [some (ResultFromError (OvsdbError.constraintViolation (newIndexExistsDetails e)))],
          acc.update, acc.txn)
      | none => some (acc.results, acc.update, acc.txn)

/-- The optional wire field that the dispatch of `Transact` dereferences for
the given operation kind, when there is one, is present. -/
def requiredFieldPresent (op : Operation) : Bool :=
  match op.Op with
  | "commit" => op.Durable.isSome
  | "comment" => op.Comment.isSome
  | "assert" => op.Lock.isSome
  | _ => true

/-- Concrete committed store: database `d`, table `T`, one row `u1`. -/
def exDB1 : DBStore := [("d", [("T", [("u1", [("c", Value.atom "x")])])])]

/-- Concrete fresh transaction against database `d`. -/
def exT1 : Transaction := { Cache := [], DeletedRows := [], DbName := "d" }

/-- Concrete batch: delete row `u1`, then select it again (the select's row
resolution warms the committed row back into the scratch cache). -/
def exOps1 : List Operation :=
  [ { Op := "delete", Table := "T",
      Where := [{ Column := "_uuid", Function := "==", Val := Value.atom "u1" }] },
    { Op := "select", Table := "T",
      Where := [{ Column := "_uuid", Function := "==", Val := Value.atom "u1" }] } ]

/-- The outcome of running `exOps1` (total by construction). -/
def exOut1 : List (Option OperationResult) × ModelUpdates × Transaction :=
  (Transaction.Transact exT1 exDB1 [] exOps1).getD ([], ⟨[]⟩, exT1)

/-- Concrete committed store with an indexed column: table `T`, index on
`name`, one committed row `u1` with `name = foo`. -/
def exDB2 : DBStore := [("d", [("T", [("u1", [("name", Value.atom "foo")])])])]

/-- Index declarations for `exDB2`. -/
def exSchema2 : Schema := [("T", [["name"]])]

/-- Concrete batch: insert a row colliding on the `name` index with the
committed row `u1`, then a `commit` operation, which fails `not-supported`. -/
def exOps2 : List Operation :=
  [ { Op := "insert", Table := "T", UUIDName := "u2", Row := [("name", Value.atom "foo")] },
    { Op := "commit", Table := "T", Durable := some true } ]

/-- The outcome of running `exOps2` (total by construction). -/
def exOut2 : List (Option OperationResult) × ModelUpdates × Transaction :=
  (Transaction.Transact exT1 exDB2 exSchema2 exOps2).getD ([], ⟨[]⟩, exT1)

/-- Concrete batch: a failing `commit` first, then an `insert` that must
not be evaluated. -/
def exOps3 : List Operation :=
  [ { Op := "commit", Table := "T", Durable := some true },
    { Op := "insert", Table := "T", UUIDName := "u9", Row := [("c", Value.atom "y")] } ]

/-- Concrete committed store holding database `d` with no tables. -/
def exDB3 : DBStore := [("d", [])]

/-- Concrete scratch cache holding the updated row `u2` of table `T`, whose
`name` tuple collides with the committed row `u1` of `exDB2`. -/
def exT7 : Transaction :=
  { Cache := [("T", [("u2", [("name", Value.atom "foo")])])], DeletedRows := [], DbName := "d" }

/-- Lookup distributes over list append, preferring the left list. -/
lemma alookup_append {α : Type} (l₁ l₂ : List (String × α)) (u : String) :
    alookup (l₁ ++ l₂) u =
      match alookup l₁ u with
      | some v => some v
      | none => alookup l₂ u := by
  induction l₁ with
  | nil => rfl
  | cons hd tl ih =>
    obtain ⟨k, v⟩ := hd
    by_cases hk : k = u <;> simp [alookup, hk, ih]

/-- Lookup after filtering out the deleted keys. -/
lemma alookup_filter_not_deleted {α : Type} (del : List String) (l : List (String × α)) (u : String) :
    alookup (l.filter (fun p => !(memStr del p.1))) u =
      if memStr del u then none else alookup l u := by
  induction l with
  | nil => simp [alookup]
  | cons hd tl ih =>
    obtain ⟨k, v⟩ := hd
    by_cases hk : k = u
    · subst hk
      by_cases hdel : memStr del k <;> simp [List.filter_cons, hdel, alookup, ih]
    · by_cases hdel : memStr del k <;> simp [List.filter_cons, hdel, alookup, hk, ih]

/-- Lookup after keeping only the keys absent from a reference list. -/
lemma alookup_filter_dbkeys (dbRows l : TableRows) (u : String) :
    alookup (l.filter (fun p => (alookup dbRows p.1).isNone)) u =
      if (alookup dbRows u).isSome then none else alookup l u := by
  induction l with
  | nil => simp [alookup]
  | cons hd tl ih =>
    obtain ⟨k, v⟩ := hd
    by_cases hk : k = u
    · subst hk
      by_cases hdb : (alookup dbRows k).isSome
      · simp only [List.filter_cons]
        have : (alookup dbRows k).isNone = false := by
          cases h : alookup dbRows k <;> simp_all
        simp [this, ih, hdb]
      · simp only [List.filter_cons]
        have : (alookup dbRows k).isNone = true := by
          cases h : alookup dbRows k <;> simp_all
        simp [this, alookup, hdb]
    · by_cases hdb : (alookup dbRows k).isNone <;>
        simp [List.filter_cons, hdb, alookup, hk, ih]

/-- Lookup in the merged row list: the committed rows with the matching
scratch row substituted where one exists. -/
lemma alookup_map_prefer (txnRows dbRows : TableRows) (u : UUID) :
    alookup (dbRows.map (fun p =>
      match alookup txnRows p.1 with
      | some txnRow => (p.1, txnRow)
      | none => p)) u =
      match alookup dbRows u with
      | none => none
      | some r =>
        match alookup txnRows u with
        | some txnRow => some txnRow
        | none => some r := by
  induction dbRows with
  | nil => rfl
  | cons hd tl ih =>
    obtain ⟨k, v⟩ := hd
    by_cases hk : k = u
    · subst hk
      cases htx : alookup txnRows k <;> simp [alookup, htx]
    · cases htx : alookup txnRows k <;> simp [alookup, hk, htx, ih]

/-- Claim C6: for every non-insert operation over `(table, where)`, the
working row set returned by row resolution equals the rows of the scratch
cache matching `where`, united with the rows of the committed store
matching `where`, scratch taking precedence on a UUID present in both, and
with every UUID in the transaction's deleted set excluded from the result. -/
theorem C6_row_resolution_characterization (t : Transaction) (db : DBStore)
    (table : String) (conds : List Condition) (u : UUID) :
    alookup (t.rowsFromTransactionCacheAndDatabase db table conds).1 u =
      (if memStr t.DeletedRows u then none
       else
         match alookup (RowsByCondition (cacheTable t.Cache table) conds) u with
         | some r => some r
         | none => alookup (dbList db t.DbName table conds) u) := by
  simp only [Transaction.rowsFromTransactionCacheAndDatabase]
  rw [alookup_filter_not_deleted, alookup_append, alookup_map_prefer, alookup_filter_dbkeys]
  by_cases hdel : memStr t.DeletedRows u
  · simp [hdel]
  · simp only [hdel, if_false]
    cases hdb : alookup (dbList db t.DbName table conds) u <;>
      cases htx : alookup (RowsByCondition (cacheTable t.Cache table) conds) u <;>
        simp [hdb, htx]

/-- Claim C1 (amended): a UUID in the transaction's deleted set never
appears in the working row set returned by row resolution, even though the
scratch cache itself may re-acquire that UUID when row resolution warms
committed rows into the cache after an earlier delete. -/
theorem C1_deleted_rows_excluded_from_resolution (t : Transaction) (db : DBStore)
    (table : String) (conds : List Condition) (u : UUID)
    (hdel : memStr t.DeletedRows u = true) :
    alookup (t.rowsFromTransactionCacheAndDatabase db table conds).1 u = none := by
  rw [C6_row_resolution_characterization, if_pos hdel]

/-- Witness for the amended claim C1 at a concrete input: after the delete
of `u1`, row resolution for the subsequent select returns no binding for
`u1`. -/
theorem C1_deleted_rows_excluded_witness :
    memStr (exOut1.2.2).DeletedRows "u1" = true ∧
    alookup ((exOut1.2.2).rowsFromTransactionCacheAndDatabase exDB1 "T" []).1 "u1" = none :=
  ⟨by decide, C1_deleted_rows_excluded_from_resolution (exOut1.2.2) exDB1 "T" [] "u1" (by decide)⟩

/-- Counterexample to claim C1 as stated: running `exOps1` (a delete of
`u1` followed by a select whose row resolution pulls `u1` back from the
committed store) ends with `u1` in the deleted-rows set AND present in the
scratch cache, so `u ∈ deletedRows(T) ⇒ u ∉ scratch(T)` fails after the
second operation. -/
theorem C1_counterexample_deleted_row_rewarmed :
    (Transaction.Transact exT1 exDB1 [] exOps1).isSome = true ∧
    memStr (exOut1.2.2).DeletedRows "u1" = true ∧
    hasRow (cacheTable (exOut1.2.2).Cache "T") "u1" = true := by
  refine ⟨by decide, by decide, by decide⟩

/-- Claim C4: an update, mutate, or delete operation whose `where` matches
no row in either the scratch cache or the committed store returns
`{count: 0}` with no error, leaves the transaction state unchanged, and
contributes no entry to the transaction's diff (its update set is empty,
and merging an empty update set changes no accumulator). -/
theorem C4_no_match_is_noop (t : Transaction) (db : DBStore) (op : Operation)
    (h₁ : RowsByCondition (cacheTable t.Cache op.Table) op.Where = [])
    (h₂ : dbList db t.DbName op.Table op.Where = []) :
    Transaction.Update t db op = ({ Count := 0, Error := "" }, some ⟨[]⟩, t) ∧
    Transaction.Mutate t db op = ({ Count := 0, Error := "" }, some ⟨[]⟩, t) ∧
    Transaction.Delete t db op = ({ Count := 0, Error := "" }, some ⟨[]⟩, t) ∧
    (∀ mu : ModelUpdates, mu.Merge ⟨[]⟩ = Except.ok mu) := by
  have hrows : t.rowsFromTransactionCacheAndDatabase db op.Table op.Where = ([], t) := by
    simp only [Transaction.rowsFromTransactionCacheAndDatabase, h₁, h₂]
    rfl
  refine ⟨?_, ?_, ?_, fun mu => rfl⟩ <;>
    simp [Transaction.Update, Transaction.Mutate, Transaction.Delete, hrows] <;> rfl

/-- Witness for claim C4 at a concrete input: an update, mutate or delete
on an empty table is a count-zero no-op. -/
theorem C4_no_match_is_noop_witness :
    Transaction.Update exT1 [] { Op := "update", Table := "T" } =
      ({ Count := 0, Error := "" }, some ⟨[]⟩, exT1) ∧
    Transaction.Mutate exT1 [] { Op := "mutate", Table := "T" } =
      ({ Count := 0, Error := "" }, some ⟨[]⟩, exT1) ∧
    Transaction.Delete exT1 [] { Op := "delete", Table := "T" } =
      ({ Count := 0, Error := "" }, some ⟨[]⟩, exT1) := by
  refine ⟨?_, ?_, ?_⟩
  · exact (C4_no_match_is_noop exT1 [] { Op := "update", Table := "T" } (by decide) (by decide)).1
  · exact (C4_no_match_is_noop exT1 [] { Op := "mutate", Table := "T" } (by decide) (by decide)).2.1
  · exact (C4_no_match_is_noop exT1 [] { Op := "delete", Table := "T" } (by decide) (by decide)).2.2.1

/-- Claim C8: a commit, abort, assert, or comment operation processed by
the dispatch of `Transact` yields a `not-supported` per-operation result
(for commit, comment and assert under the precondition that the optional
field the source dereferences is present). -/
theorem C8_unsupported_ops_not_supported (db : DBStore) (schema : Schema)
    (t : Transaction) (op : Operation)
    (hop : op.Op = "commit" ∨ op.Op = "abort" ∨ op.Op = "comment" ∨ op.Op = "assert")
    (hfield : requiredFieldPresent op = true) :
    dispatchOp db schema t op = some (ResultFromError OvsdbError.notSupported, none, t) := by
  rcases hop with h | h | h | h
  · simp only [requiredFieldPresent, h] at hfield
    obtain ⟨d, hd⟩ := Option.isSome_iff_exists.mp hfield
    simp [dispatchOp, h, hd, Transaction.Commit]
  · simp [dispatchOp, h, Transaction.Abort]
  · simp only [requiredFieldPresent, h] at hfield
    obtain ⟨c, hc⟩ := Option.isSome_iff_exists.mp hfield
    simp [dispatchOp, h, hc, Transaction.Comment]
  · simp only [requiredFieldPresent, h] at hfield
    obtain ⟨l, hl⟩ := Option.isSome_iff_exists.mp hfield
    simp [dispatchOp, h, hl, Transaction.Assert]

/-- Witness for claim C8 at concrete inputs: all four operation kinds
dispatch to a `not-supported` result when their optional field is present. -/
theorem C8_unsupported_ops_witness :
    dispatchOp [] [] exT1 { Op := "commit", Durable := some true } =
      some (ResultFromError OvsdbError.notSupported, none, exT1) ∧
    dispatchOp [] [] exT1 { Op := "abort" } =
      some (ResultFromError OvsdbError.notSupported, none, exT1) ∧
    dispatchOp [] [] exT1 { Op := "comment", Comment := some "note" } =
      some (ResultFromError OvsdbError.notSupported, none, exT1) ∧
    dispatchOp [] [] exT1 { Op := "assert", Lock := some "lk" } =
      some (ResultFromError OvsdbError.notSupported, none, exT1) :=
  ⟨C8_unsupported_ops_not_supported [] [] exT1 _ (Or.inl rfl) (by decide),
   C8_unsupported_ops_not_supported [] [] exT1 _ (Or.inr (Or.inl rfl)) (by decide),
   C8_unsupported_ops_not_supported [] [] exT1 _ (Or.inr (Or.inr (Or.inl rfl))) (by decide),
   C8_unsupported_ops_not_supported [] [] exT1 _ (Or.inr (Or.inr (Or.inr rfl))) (by decide)⟩

/-- Claim C9: for a commit operation with `durable` absent, a comment
operation with `comment` absent, or an assert operation with `lock` absent,
the dispatch of `Transact` dereferences a nil pointer (modelled as the
`none` outcome) instead of returning a not-supported result; the dispatch
completes exactly when the corresponding optional field is present. -/
theorem C9_nil_optional_field_panics (db : DBStore) (schema : Schema)
    (t : Transaction) (op : Operation) :
    (op.Op = "commit" → (dispatchOp db schema t op = none ↔ op.Durable = none)) ∧
    (op.Op = "comment" → (dispatchOp db schema t op = none ↔ op.Comment = none)) ∧
    (op.Op = "assert" → (dispatchOp db schema t op = none ↔ op.Lock = none)) := by
  refine ⟨fun h => ?_, fun h => ?_, fun h => ?_⟩
  · simp only [dispatchOp, h]
    cases hD : op.Durable <;> simp
  · simp only [dispatchOp, h]
    cases hC : op.Comment <;> simp
  · simp only [dispatchOp, h]
    cases hL : op.Lock <;> simp

/-- Witness for claim C9 at concrete inputs: the dispatch panics on each of
the three operations when its optional field is nil, and completes for a
commit whose `durable` is present. -/
theorem C9_nil_optional_field_witness :
    dispatchOp [] [] exT1 { Op := "commit" } = none ∧
    dispatchOp [] [] exT1 { Op := "comment" } = none ∧
    dispatchOp [] [] exT1 { Op := "assert" } = none ∧
    ¬(dispatchOp [] [] exT1 { Op := "commit", Durable := some true } = none) :=
  ⟨((C9_nil_optional_field_panics [] [] exT1 { Op := "commit" }).1 rfl).mpr rfl,
   ((C9_nil_optional_field_panics [] [] exT1 { Op := "comment" }).2.1 rfl).mpr rfl,
   ((C9_nil_optional_field_panics [] [] exT1 { Op := "assert" }).2.2 rfl).mpr rfl,
   fun h => by
     simpa using
       ((C9_nil_optional_field_panics [] [] exT1
         { Op := "commit", Durable := some true }).1 rfl).mp h⟩

/-- After an operation error the loop step only appends a nil placeholder. -/
lemma transactStep_poisoned (db : DBStore) (schema : Schema) (acc : TAcc) (op : Operation)
    (h : acc.r.Error ≠ "") :
    transactStep db schema acc op = some { acc with results := acc.results ++ [none] } := by
  simp [transactStep, h]

/-- A step from a clean accumulator appends exactly the stored result. -/
lemma transactStep_clean (db : DBStore) (schema : Schema) (acc a : TAcc) (op : Operation)
    (hr : acc.r.Error = "") (h : transactStep db schema acc op = some a) :
    a.results = acc.results ++ [some a.r] := by
  unfold transactStep at h
  rw [if_neg (by simp [hr])] at h
  split at h
  · cases h
    rfl
  · split at h
    · exact Option.noConfusion h
    · split at h
      · cases h
        rfl
      · split at h
        · split at h
          · cases h
            rfl
          · cases h
            rfl
        · cases h
          rfl

/-- Every loop step appends exactly one result slot. -/
lemma transactStep_length (db : DBStore) (schema : Schema) (acc a : TAcc) (op : Operation)
    (h : transactStep db schema acc op = some a) :
    a.results.length = acc.results.length + 1 := by
  by_cases hr : acc.r.Error = ""
  · rw [transactStep_clean db schema acc a op hr h]
    simp
  · rw [transactStep_poisoned db schema acc op hr] at h
    cases h
    simp

/-- The loop step reads nothing from the accumulated result vector, so a
prefix can be split off. -/
lemma transactStep_shift (db : DBStore) (schema : Schema) (t : Transaction)
    (rs : List (Option OperationResult)) (u : ModelUpdates) (r : OperationResult)
    (op : Operation) :
    transactStep db schema ⟨t, rs, u, r⟩ op =
      (transactStep db schema ⟨t, [], u, r⟩ op).map
        (fun a => ⟨a.txn, rs ++ a.results, a.update, a.r⟩) := by
  unfold transactStep
  by_cases hr : r.Error ≠ ""
  · simp [hr]
  · rw [if_neg hr, if_neg hr]
    by_cases hdb : dbExists db t.DbName
    · simp only [hdb, Bool.not_true, Bool.false_eq_true, if_false]
      cases hd : dispatchOp db schema t op with
      | none => rfl
      | some trip =>
        obtain ⟨r₀, u₀, t₂⟩ := trip
        cases u₀ with
        | none => rfl
        | some mu =>
          dsimp only
          by_cases he : r₀.Error = ""
          · simp only [if_pos he]
            cases hm : ModelUpdates.Merge u mu <;> rfl
          · simp only [if_neg he]
            rfl
    · simp only [Bool.not_eq_true] at hdb
      simp only [hdb, Bool.not_false, if_true]
      rfl

/-- Splitting a result-vector prefix off a whole loop run. -/
lemma transactLoop_shift (db : DBStore) (schema : Schema) (t : Transaction)
    (rs : List (Option OperationResult)) (u : ModelUpdates) (r : OperationResult)
    (ops : List Operation) :
    transactLoop db schema ⟨t, rs, u, r⟩ ops =
      (transactLoop db schema ⟨t, [], u, r⟩ ops).map
        (fun a => ⟨a.txn, rs ++ a.results, a.update, a.r⟩) := by
  induction ops generalizing t rs u r with
  | nil => simp [transactLoop]
  | cons op ops ih =>
    unfold transactLoop
    rw [transactStep_shift]
    cases hstep : transactStep db schema ⟨t, [], u, r⟩ op with
    | none => rfl
    | some a =>
      obtain ⟨t₂, rs₂, u₂, r₂⟩ := a
      simp only [Option.map_some']
      rw [ih t₂ (rs ++ rs₂) u₂ r₂, ih t₂ rs₂ u₂ r₂]
      cases transactLoop db schema ⟨t₂, [], u₂, r₂⟩ ops <;> simp

/-- A poisoned accumulator pads the rest of the batch with nil placeholders
and changes nothing else. -/
lemma transactLoop_poisoned (db : DBStore) (schema : Schema) (t : Transaction)
    (rs : List (Option OperationResult)) (u : ModelUpdates) (r : OperationResult)
    (ops : List Operation) (h : r.Error ≠ "") :
    transactLoop db schema ⟨t, rs, u, r⟩ ops =
      some ⟨t, rs ++ List.replicate ops.length none, u, r⟩ := by
  induction ops generalizing rs with
  | nil => simp [transactLoop]
  | cons op ops ih =>
    unfold transactLoop
    rw [transactStep_poisoned db schema ⟨t, rs, u, r⟩ op h]
    show transactLoop db schema ⟨t, rs ++ [none], u, r⟩ ops = _
    rw [ih (rs ++ [none])]
    simp [List.replicate_succ]

/-- The loop appends exactly one result slot per operation. -/
lemma transactLoop_length (db : DBStore) (schema : Schema) (acc a : TAcc)
    (ops : List Operation) (h : transactLoop db schema acc ops = some a) :
    a.results.length = acc.results.length + ops.length := by
  induction ops generalizing acc with
  | nil =>
    cases h
    simp
  | cons op ops ih =>
    unfold transactLoop at h
    cases hstep : transactStep db schema acc op with
    | none =>
      rw [hstep] at h
      exact Option.noConfusion h
    | some acc₂ =>
      rw [hstep] at h
      have h₁ := transactStep_length db schema acc acc₂ op hstep
      have h₂ := ih acc₂ h
      simp [h₂, h₁]
      omega

/-- Characterization of a loop run from a clean accumulator: either every
operation succeeded and every emitted slot is a clean stored result, or
some operation at a position `i` failed, in which case the run agrees with
the run truncated right after position `i` and pads the remaining slots
with nil placeholders. -/
lemma transactLoop_spec (db : DBStore) (schema : Schema) :
    ∀ (ops : List Operation) (t : Transaction) (u : ModelUpdates) (r : OperationResult),
    r.Error = "" →
    ∀ a, transactLoop db schema ⟨t, [], u, r⟩ ops = some a →
    (a.r.Error = "" ∧ a.results.length = ops.length ∧
      ∀ (j : Nat) (res : Option OperationResult),
        a.results[j]? = some res → ∃ x, res = some x ∧ x.Error = "")
    ∨ (∃ i acc₁, i < ops.length ∧
        transactLoop db schema ⟨t, [], u, r⟩ (ops.take (i + 1)) = some acc₁ ∧
        acc₁.r.Error ≠ "" ∧
        acc₁.results.length = i + 1 ∧
        a = ⟨acc₁.txn, acc₁.results ++ List.replicate (ops.length - (i + 1)) none,
             acc₁.update, acc₁.r⟩ ∧
        (∀ (j : Nat) (res : Option OperationResult),
          j < i → acc₁.results[j]? = some res → ∃ x, res = some x ∧ x.Error = "") ∧
        acc₁.results[i]? = some (some acc₁.r)) := by
  intro ops
  induction ops with
  | nil =>
    intro t u r hr a h
    cases h
    refine Or.inl ⟨hr, rfl, fun j res hres => ?_⟩
    simp at hres
  | cons op ops ih =>
    intro t u r hr a h
    unfold transactLoop at h
    cases hstep : transactStep db schema ⟨t, [], u, r⟩ op with
    | none =>
      rw [hstep] at h
      exact Option.noConfusion h
    | some acc₂ =>
      rw [hstep] at h
      obtain ⟨t₂, rs₂, u₂, r₂⟩ := acc₂
      have hrs₂ : rs₂ = [some r₂] := by
        simpa using transactStep_clean db schema ⟨t, [], u, r⟩ ⟨t₂, rs₂, u₂, r₂⟩ op hr hstep
      subst hrs₂
      replace h : transactLoop db schema ⟨t₂, [some r₂], u₂, r₂⟩ ops = some a := h
      by_cases hr₂ : r₂.Error = ""
      · rw [transactLoop_shift] at h
        cases hrest : transactLoop db schema ⟨t₂, [], u₂, r₂⟩ ops with
        | none =>
          rw [hrest] at h
          exact Option.noConfusion h
        | some a₀ =>
          rw [hrest] at h
          simp only [Option.map_some'] at h
          cases h
          rcases ih t₂ u₂ r₂ hr₂ a₀ hrest with
            ⟨h1, h2, h3⟩ | ⟨i, acc₁, hi, hloop₁, hdirty, hlen₁, ha, hclean, hat⟩
          · refine Or.inl ⟨h1, ?_, fun j res hres => ?_⟩
            · simp [h2]
            · cases j with
              | zero =>
                simp only [List.singleton_append, List.getElem?_cons_zero,
                  Option.some.injEq] at hres
                exact ⟨r₂, hres.symm, hr₂⟩
              | succ j =>
                simp only [List.singleton_append, List.getElem?_cons_succ] at hres
                exact h3 j res hres
          · refine Or.inr ⟨i + 1, ⟨acc₁.txn, [some r₂] ++ acc₁.results, acc₁.update, acc₁.r⟩,
              ?_, ?_, hdirty, ?_, ?_, ?_, ?_⟩
            · simpa using Nat.succ_lt_succ hi
            · rw [List.take_succ_cons]
              unfold transactLoop
              rw [hstep]
              show transactLoop db schema ⟨t₂, [some r₂], u₂, r₂⟩ (List.take (i + 1) ops) = _
              rw [transactLoop_shift, hloop₁]
              rfl
            · simp [hlen₁]
            · rw [ha]
              simp [List.append_assoc, Nat.succ_sub_succ]
            · intro j res hj hres
              cases j with
              | zero =>
                simp only [List.singleton_append, List.getElem?_cons_zero,
                  Option.some.injEq] at hres
                exact ⟨r₂, hres.symm, hr₂⟩
              | succ j =>
                simp only [List.singleton_append, List.getElem?_cons_succ] at hres
                exact hclean j res (by omega) hres
            · simpa using hat
      · rw [transactLoop_poisoned db schema t₂ [some r₂] u₂ r₂ ops hr₂] at h
        cases h
        refine Or.inr ⟨0, ⟨t₂, [some r₂], u₂, r₂⟩, by simp, ?_, hr₂, rfl, ?_, ?_, rfl⟩
        · rw [List.take_succ_cons, List.take_zero]
          unfold transactLoop
          rw [hstep]
          rfl
        · simp
        · intro j res hj
          exact absurd hj (Nat.not_lt_zero j)

/-- When the result at position `i` of a completed `Transact` run carries a
non-empty error, the run has exactly one slot per operation, pads every
later slot with a nil placeholder, and agrees with the run of the batch
truncated right after position `i`. -/
lemma transact_error_case (t : Transaction) (db : DBStore) (schema : Schema)
    (ops : List Operation) (res : List (Option OperationResult)) (upd : ModelUpdates)
    (tF : Transaction) (i : Nat) (r : OperationResult)
    (h : Transaction.Transact t db schema ops = some (res, upd, tF))
    (hi : i < ops.length)
    (hres : res[i]? = some (some r))
    (hr : r.Error ≠ "") :
    res.length = ops.length ∧
    (∀ j, i < j → j < ops.length → res[j]? = some none) ∧
    Transaction.Transact t db schema (ops.take (i + 1)) = some (res.take (i + 1), upd, tF) := by
  unfold Transaction.Transact at h
  cases hloop : transactLoop db schema ⟨t, [], ⟨[]⟩, {}⟩ ops with
  | none =>
    rw [hloop] at h
    exact Option.noConfusion h
  | some a =>
    rw [hloop] at h
    dsimp only at h
    have hlen := transactLoop_length db schema ⟨t, [], ⟨[]⟩, {}⟩ a ops hloop
    simp only [List.length_nil, Nat.zero_add] at hlen
    rcases transactLoop_spec db schema ops t ⟨[]⟩ {} rfl a hloop with
      ⟨h1, h2, h3⟩ | ⟨i₂, acc₁, hi₂, hloop₁, hdirty, hlen₁, ha, hclean, hat⟩
    · exfalso
      rw [if_neg (by simp [h1])] at h
      have key : ∀ (rs : List (Option OperationResult)), res = a.results ++ rs → False := by
        intro rs hres0
        have hidx : res[i]? = a.results[i]? := by
          rw [hres0]
          exact List.getElem?_append_left (by omega)
        obtain ⟨x, hx, hxe⟩ := h3 i (some r) (hidx ▸ hres)
        obtain rfl : r = x := Option.some.inj hx
        exact hr hxe
      split at h
      · simp only [Option.some.injEq, Prod.mk.injEq] at h
        exact key _ h.1.symm
      · simp only [Option.some.injEq, Prod.mk.injEq] at h
        exact key [] (by simpa using h.1.symm)
    · have haerr : a.r.Error ≠ "" := by
        rw [ha]
        exact hdirty
      rw [if_pos haerr] at h
      simp only [Option.some.injEq, Prod.mk.injEq] at h
      obtain ⟨hres0, hupd0, htxn0⟩ := h
      subst hres0 hupd0 htxn0
      have hres_eq : a.results = acc₁.results ++ List.replicate (ops.length - (i₂ + 1)) none := by
        rw [ha]
      have hii : i = i₂ := by
        rcases Nat.lt_trichotomy i i₂ with hlt | heq | hgt
        · exfalso
          have hidx : a.results[i]? = acc₁.results[i]? := by
            rw [hres_eq]
            exact List.getElem?_append_left (by omega)
          obtain ⟨x, hx, hxe⟩ := hclean i (some r) hlt (hidx ▸ hres)
          obtain rfl : r = x := Option.some.inj hx
          exact hr hxe
        · exact heq
        · exfalso
          have hidx : a.results[i]? = some none := by
            rw [hres_eq, List.getElem?_append_right (by omega)]
            rw [List.getElem?_replicate]
            rw [if_pos (by omega)]
          rw [hidx] at hres
          exact Option.noConfusion (Option.some.inj hres)
      subst hii
      have htake : a.results.take (i + 1) = acc₁.results := by
        rw [hres_eq, ← hlen₁]
        exact List.take_left acc₁.results _
      refine ⟨hlen, fun j hij hj => ?_, ?_⟩
      · rw [hres_eq, List.getElem?_append_right (by omega), List.getElem?_replicate]
        rw [if_pos (by omega)]
      · unfold Transaction.Transact
        rw [hloop₁]
        dsimp only
        rw [if_pos hdirty, htake, ha]

/-- Claim C2 (amended): once some operation of the batch produces a result
with a non-empty error, `Transact` skips index validation entirely — the
returned result vector has exactly one entry per submitted operation and no
trailing index-validation entry is appended. -/
theorem C2_error_skips_index_validation (t : Transaction) (db : DBStore) (schema : Schema)
    (ops : List Operation) (res : List (Option OperationResult)) (upd : ModelUpdates)
    (tF : Transaction) (i : Nat) (r : OperationResult)
    (h : Transaction.Transact t db schema ops = some (res, upd, tF))
    (hi : i < ops.length)
    (hres : res[i]? = some (some r))
    (hr : r.Error ≠ "") :
    res.length = ops.length :=
  (transact_error_case t db schema ops res upd tF i r h hi hres hr).1

/-- Witness for the amended claim C2 at a concrete input: the failed
`commit` of `exOps3` leaves a two-entry result vector for the two-operation
batch, with no trailing validation entry. -/
theorem C2_error_skips_index_validation_witness :
    ([some (ResultFromError OvsdbError.notSupported), none] :
      List (Option OperationResult)).length = exOps3.length :=
  C2_error_skips_index_validation exT1 exDB3 [] exOps3
    [some (ResultFromError OvsdbError.notSupported), none] ⟨[]⟩ exT1 0
    (ResultFromError OvsdbError.notSupported) (by decide) (by decide) (by decide) (by decide)

/-- Claim C3: once the operation at position `i` produces a result with a
non-empty error, every result slot after position `i` is a nil placeholder,
and no per-operation work is performed for the later operations — the run
returns the same accumulated update and transaction state as the run of the
batch truncated right after position `i`. -/
theorem C3_abort_propagation (t : Transaction) (db : DBStore) (schema : Schema)
    (ops : List Operation) (res : List (Option OperationResult)) (upd : ModelUpdates)
    (tF : Transaction) (i : Nat) (r : OperationResult)
    (h : Transaction.Transact t db schema ops = some (res, upd, tF))
    (hi : i < ops.length)
    (hres : res[i]? = some (some r))
    (hr : r.Error ≠ "") :
    res.length = ops.length ∧
    (∀ j, i < j → j < ops.length → res[j]? = some none) ∧
    Transaction.Transact t db schema (ops.take (i + 1)) = some (res.take (i + 1), upd, tF) :=
  transact_error_case t db schema ops res upd tF i r h hi hres hr

/-- Witness for claim C3 at a concrete input: after the failing `commit` at
position 0 of `exOps3`, the slot at position 1 is nil and the run equals
the truncated run. -/
theorem C3_abort_propagation_witness :
    ([some (ResultFromError OvsdbError.notSupported), none] :
      List (Option OperationResult)).length = exOps3.length ∧
    (∀ j, 0 < j → j < exOps3.length →
      ([some (ResultFromError OvsdbError.notSupported), none] :
        List (Option OperationResult))[j]? = some none) ∧
    Transaction.Transact exT1 exDB3 [] (exOps3.take 1) =
      some (([some (ResultFromError OvsdbError.notSupported), none] :
        List (Option OperationResult)).take 1, ⟨[]⟩, exT1) :=
  C3_abort_propagation exT1 exDB3 [] exOps3
    [some (ResultFromError OvsdbError.notSupported), none] ⟨[]⟩ exT1 0
    (ResultFromError OvsdbError.notSupported) (by decide) (by decide) (by decide) (by decide)

/-- Claim C5: for a batch of `N` operations, the result vector of a
completed `Transact` run has at least `N` entries and at most `N + 1`
(the optional extra entry coming from post-operation index validation). -/
theorem C5_result_vector_length (t : Transaction) (db : DBStore) (schema : Schema)
    (ops : List Operation) (out : List (Option OperationResult) × ModelUpdates × Transaction)
    (h : Transaction.Transact t db schema ops = some out) :
    ops.length ≤ out.1.length ∧ out.1.length ≤ ops.length + 1 := by
  unfold Transaction.Transact at h
  cases hloop : transactLoop db schema ⟨t, [], ⟨[]⟩, {}⟩ ops with
  | none =>
    rw [hloop] at h
    exact Option.noConfusion h
  | some acc =>
    rw [hloop] at h
    dsimp only at h
    have hlen := transactLoop_length db schema ⟨t, [], ⟨[]⟩, {}⟩ acc ops hloop
    simp only [List.length_nil, Nat.zero_add] at hlen
    split at h
    · obtain rfl := Option.some.inj h
      simp [hlen]
    · split at h
      · obtain rfl := Option.some.inj h
        simp [hlen]
      · obtain rfl := Option.some.inj h
        simp [hlen]

/-- Witness for claim C5 at a concrete input: the two-operation batch
`exOps3` yields a result vector of length between 2 and 3. -/
theorem C5_result_vector_length_witness :
    exOps3.length ≤
      ([some (ResultFromError OvsdbError.notSupported), none] :
        List (Option OperationResult)).length ∧
    ([some (ResultFromError OvsdbError.notSupported), none] :
      List (Option OperationResult)).length ≤ exOps3.length + 1 :=
  C5_result_vector_length exT1 exDB3 [] exOps3
    ([some (ResultFromError OvsdbError.notSupported), none], ⟨[]⟩, exT1) (by decide)

/-- A clean step against a missing database stores and appends the
database-does-not-exist error result. -/
lemma transactStep_no_db (db : DBStore) (schema : Schema) (acc : TAcc) (op : Operation)
    (hr : acc.r.Error = "") (hdb : dbExists db acc.txn.DbName = false) :
    transactStep db schema acc op =
      some { acc with
             r := { Error := "database does not exist" },
             results := acc.results ++ [some { Error := "database does not exist" }] } := by
  unfold transactStep
  rw [if_neg (by simp [hr])]
  rw [if_pos (by simp [hdb])]

/-- Claim C10: a non-empty batch against a database name that does not
exist yields a first result with error text `database does not exist`,
nil placeholders for every later slot, an empty update set, and an
unchanged transaction state. -/
theorem C10_nonexistent_database (t : Transaction) (db : DBStore) (schema : Schema)
    (ops : List Operation) (hdb : dbExists db t.DbName = false) (hne : ops ≠ []) :
    Transaction.Transact t db schema ops =
      some (some { Error := "database does not exist" } ::
        List.replicate (ops.length - 1) none, ⟨[]⟩, t) := by
  obtain ⟨op, rest, rfl⟩ := List.exists_cons_of_ne_nil hne
  unfold Transaction.Transact transactLoop
  rw [transactStep_no_db db schema ⟨t, [], ⟨[]⟩, {}⟩ op rfl hdb]
  dsimp only [List.nil_append]
  rw [transactLoop_poisoned db schema t [some { Error := "database does not exist" }] ⟨[]⟩
    { Error := "database does not exist" } rest (by simp)]
  simp

/-- Witness for claim C10 at a concrete input: a one-operation batch
against the absent database `d` returns the single error result. -/
theorem C10_nonexistent_database_witness :
    Transaction.Transact exT1 [] [] [{ Op := "abort" }] =
      some (some { Error := "database does not exist" } ::
        List.replicate ((([{ Op := "abort" }] : List Operation)).length - 1) none, ⟨[]⟩, exT1) :=
  C10_nonexistent_database exT1 [] [] [{ Op := "abort" }] (by decide) (by decide)

/-- Characterization of the per-table row walk of `checkIndexes`: when no
row duplicates an index tuple inside the scratch table itself, the walk
succeeds exactly when every committed-store collision of every row is
tolerated, i.e. every colliding committed UUID is deleted in the
transaction or itself present in the scratch table. -/
lemma checkRows_none_iff (db : DBStore) (schema : Schema) (dbName : String)
    (deleted : List UUID) (table : String) (tc : TableRows) :
    ∀ l : TableRows,
    (∀ q ∈ l, cacheIndexExists schema table tc q.1 q.2 = none) →
    (checkRows db schema dbName deleted table tc l = none ↔
      ∀ q ∈ l, ∀ ex ∈ existingOf (dbCheckIndexes db schema dbName table q.1 q.2),
        memStr deleted ex = true ∨ hasRow tc ex = true) := by
  intro l hintra
  induction l with
  | nil => simp [checkRows]
  | cons q rest ih =>
    obtain ⟨u, r⟩ := q
    have hq : cacheIndexExists schema table tc u r = none :=
      (List.forall_mem_cons.mp hintra).1
    have hrest := ih (List.forall_mem_cons.mp hintra).2
    unfold checkRows
    rw [hq]
    dsimp only
    cases hdb : dbCheckIndexes db schema dbName table u r with
    | none =>
      dsimp only
      rw [hrest, List.forall_mem_cons]
      have hhead : ∀ ex ∈ existingOf (dbCheckIndexes db schema dbName table u r),
          memStr deleted ex = true ∨ hasRow tc ex = true := by
        rw [hdb]
        intro ex hex
        simp [existingOf] at hex
      exact ⟨fun h => ⟨hhead, h⟩, fun h => h.2⟩
    | some e =>
      dsimp only
      by_cases hall : e.Existing.all (fun ex => memStr deleted ex || hasRow tc ex) = true
      · rw [if_pos hall, hrest, List.forall_mem_cons]
        have hhead : ∀ ex ∈ existingOf (dbCheckIndexes db schema dbName table u r),
            memStr deleted ex = true ∨ hasRow tc ex = true := by
          rw [hdb]
          intro ex hex
          have hor := List.all_eq_true.mp hall ex (by simpa [existingOf] using hex)
          simpa using hor
        exact ⟨fun h => ⟨hhead, h⟩, fun h => h.2⟩
      · rw [if_neg hall]
        constructor
        · intro hfalse
          exact Option.noConfusion hfalse
        · intro hAll
          exfalso
          have hhead := (List.forall_mem_cons.mp hAll).1
          apply hall
          rw [List.all_eq_true]
          intro ex hex
          have := hhead ex (by simpa [existingOf, hdb] using hex)
          simpa using this

/-- Characterization of the outer table loop of `checkIndexes`. -/
lemma checkTables_none_iff (db : DBStore) (schema : Schema) (dbName : String)
    (deleted : List UUID) :
    ∀ c : Cache,
    (∀ p ∈ c, ∀ q ∈ p.2, cacheIndexExists schema p.1 p.2 q.1 q.2 = none) →
    (checkTables db schema dbName deleted c = none ↔
      ∀ p ∈ c, ∀ q ∈ p.2,
        ∀ ex ∈ existingOf (dbCheckIndexes db schema dbName p.1 q.1 q.2),
          memStr deleted ex = true ∨ hasRow p.2 ex = true) := by
  intro c hintra
  induction c with
  | nil => simp [checkTables]
  | cons p rest ih =>
    obtain ⟨table, tc⟩ := p
    have hhead := checkRows_none_iff db schema dbName deleted table tc tc
      (List.forall_mem_cons.mp hintra).1
    have hrest := ih (List.forall_mem_cons.mp hintra).2
    unfold checkTables
    cases hcr : checkRows db schema dbName deleted table tc tc with
    | some e =>
      constructor
      · intro hfalse
        exact Option.noConfusion hfalse
      · intro hAll
        exfalso
        have hnone : checkRows db schema dbName deleted table tc tc = none :=
          hhead.mpr (List.forall_mem_cons.mp hAll).1
        rw [hcr] at hnone
        exact Option.noConfusion hnone
    | none =>
      rw [hrest, List.forall_mem_cons]
      exact ⟨fun h => ⟨hhead.mp hcr, h⟩, fun h => h.2⟩

/-- Claim C7: during post-operation index validation, provided no two
scratch rows of a table collide among themselves, `checkIndexes` succeeds
if and only if every scratch row's committed-store collision is tolerated,
where a colliding committed UUID is tolerated exactly when it is in the
transaction's deleted set or itself present in the scratch table; any
other collision makes `checkIndexes` return the index-exists error. -/
theorem C7_index_collision_tolerance (t : Transaction) (db : DBStore) (schema : Schema)
    (hintra : ∀ p ∈ t.Cache, ∀ q ∈ p.2, cacheIndexExists schema p.1 p.2 q.1 q.2 = none) :
    (t.checkIndexes db schema = none ↔
      ∀ p ∈ t.Cache, ∀ q ∈ p.2,
        ∀ ex ∈ existingOf (dbCheckIndexes db schema t.DbName p.1 q.1 q.2),
          memStr t.DeletedRows ex = true ∨ hasRow p.2 ex = true) :=
  checkTables_none_iff db schema t.DbName t.DeletedRows t.Cache hintra

/-- Witness for claim C7 at a concrete input: the scratch row `u2` of
`exT7` has no intra-scratch collision, and the characterization applies to
its committed-store collision with `u1` (which is untolerated there, so
`checkIndexes` reports it). -/
theorem C7_index_collision_tolerance_witness :
    (∀ p ∈ exT7.Cache, ∀ q ∈ p.2, cacheIndexExists exSchema2 p.1 p.2 q.1 q.2 = none) ∧
    ((exT7.checkIndexes exDB2 exSchema2 = none) ↔
      ∀ p ∈ exT7.Cache, ∀ q ∈ p.2,
        ∀ ex ∈ existingOf (dbCheckIndexes exDB2 exSchema2 exT7.DbName p.1 q.1 q.2),
          memStr exT7.DeletedRows ex = true ∨ hasRow p.2 ex = true) :=
  ⟨by decide, C7_index_collision_tolerance exT7 exDB2 exSchema2 (by decide)⟩

/-- Counterexample to claim C2 as stated: in the concrete batch `exOps2`
the second operation (`commit`) produces a non-empty error while the first
operation inserted a row whose `name` index tuple collides with the
committed row `u1`; `Transact` returns exactly two results with no trailing
entry even though `checkIndexes` on the final state reports the collision —
index validation did not run after the failed batch. -/
theorem C2_counterexample_validation_skipped :
    (Transaction.Transact exT1 exDB2 exSchema2 exOps2).isSome = true ∧
    exOut2.1.length = exOps2.length ∧
    exOut2.1[1]? = some (some (ResultFromError OvsdbError.notSupported)) ∧
    ((exOut2.2.2).checkIndexes exDB2 exSchema2).isSome = true := by
  refine ⟨by decide, by decide, by decide, by decide⟩

end LibOVSDB
